import Mathlib

/-!
Shallow embedding of the weighted keyword search engine and the criteria
store of the agent-openpools repository (src/core/keyword_search.py and
src/core/profile_manager.py), with proofs of the specified properties of
keyword weighting, tiered scoring, price filtering, result assembly and
criteria merging.  Python strings are Lean strings, pandas rows are the
Record structure below, the float arithmetic of the source is modelled
exactly in ℚ, and every fallible step is total by construction.
-/

unseal Rat.add Rat.mul Rat.inv Rat.sub Rat.ofScientific

namespace OpenPools

/-- Python lowercasing, s.lower(), on the ASCII fragment: every character is
mapped by Char.toLower.  The repository data and queries are ASCII, where
this agrees with Python. -/
def lowerStr (s : String) : String := String.mk (s.data.map Char.toLower)

/-- Python substring membership, needle in hay. -/
def strIn (needle hay : String) : Bool := decide (needle.data <:+: hay.data)

/-- Python s.split() with no separator: split on whitespace runs, dropping
empty tokens. -/
def pySplit (s : String) : List String :=
  ((s.data.splitOnP (fun c => c.isWhitespace)).filter (fun t => t ≠ [])).map String.mk

/-- One row of the property table, restricted to the columns the search
engine reads: Project Name, Developer, Location, Region, Nearby
Developments, Key Amenities and Price per sqft (Enriched).  A missing cell
reads as the empty string, mirroring str(row.get(column, "")). -/
structure Record where
  projectName : String
  developer : String
  location : String
  region : String
  nearby : String
  amenities : String
  price : String
deriving DecidableEq

/-- The text scanned by _matches_keyword: the space-join of project name,
developer, location, region and nearby developments, lowercased.  Key
Amenities is not part of this text. -/
def searchTextStr (r : Record) : String :=
  lowerStr (r.projectName ++ " " ++ r.developer ++ " " ++ r.location ++ " " ++
    r.region ++ " " ++ r.nearby)

/-- _matches_keyword: every whitespace token of the keyword occurs,
case-insensitively, somewhere in the search text of the row. -/
def matches_keyword (r : Record) (kw : String) : Bool :=
  (pySplit kw).all (fun part => strIn (lowerStr part) (searchTextStr r))

/-- The matches count of the weighting stage: how many rows of the full
dataset (self.df) the keyword matches. -/
def countMatches (ds : List Record) (kw : String) : Nat :=
  (ds.filter (fun r => matches_keyword r kw)).length

/-- Keyword weight: 100 / matches when the keyword matches at least one row
of the full dataset, otherwise 0. -/
def weightFor (ds : List Record) (kw : String) : ℚ :=
  let m := countMatches ds kw
  if 0 < m then 100 / (m : ℚ) else 0

/-- Insertion-ordered key list of the keyword_weights dict: first occurrence
of a keyword fixes its position, later duplicates collapse onto it. -/
def dedupKeys (l : List String) : List String :=
  l.foldl (fun acc k => if k ∈ acc then acc else acc ++ [k]) []

/-- The keyword_weights mapping built by the weighting loop, in dict
insertion order, every weight taken over the full dataset. -/
def keywordWeights (ds : List Record) (keywords : List String) : List (String × ℚ) :=
  (dedupKeys keywords).map (fun kw => (kw, weightFor ds kw))

/-- Project-name tier test of calculate_score. -/
def projMatch (r : Record) (parts : List String) : Bool :=
  parts.all (fun p => strIn (lowerStr p) (lowerStr r.projectName))

/-- Developer tier test of calculate_score. -/
def devMatch (r : Record) (parts : List String) : Bool :=
  parts.all (fun p => strIn (lowerStr p) (lowerStr r.developer))

/-- Location tier test of calculate_score. -/
def locMatch (r : Record) (parts : List String) : Bool :=
  parts.all (fun p => strIn (lowerStr p) (lowerStr r.location))

/-- The other_text of the fourth tier: space-join of region, nearby
developments and key amenities, lowercased. -/
def otherText (r : Record) : String :=
  lowerStr (r.region ++ " " ++ r.nearby ++ " " ++ r.amenities)

/-- Region / nearby / amenities tier test of calculate_score. -/
def otherMatch (r : Record) (parts : List String) : Bool :=
  parts.all (fun p => strIn (lowerStr p) (otherText r))

/-- Per-keyword body of calculate_score: the four tiers in their fixed
order, first match wins via continue, returning the score increment and
the matched_terms increment for this keyword. -/
def scoreKw (r : Record) (kw : String) (w : ℚ) : ℚ × List String :=
  let parts := pySplit kw
  if projMatch r parts then (w * 10, [kw])
  else if devMatch r parts then (w * 5, [kw])
  else if locMatch r parts then (w * 3, [kw])
  else if otherMatch r parts then (w, [kw])
  else (0, [])

/-- calculate_score: fold the per-keyword contributions over the weight
mapping, accumulating score and matched_terms in order. -/
def calculate_score (ws : List (String × ℚ)) (r : Record) : ℚ × List String :=
  ws.foldl (fun acc p => (acc.1 + (scoreKw r p.1 p.2).1, acc.2 ++ (scoreKw r p.1 p.2).2))
    ((0 : ℚ), ([] : List String))

/-- Python str.strip(): drop whitespace from both ends. -/
def stripL (cs : List Char) : List Char :=
  ((cs.dropWhile Char.isWhitespace).reverse.dropWhile Char.isWhitespace).reverse

/-- Tail of a digit run in a Python float literal: a sequence of digits in
which a single underscore may stand between two digits. -/
def digitTail : List Char → Bool
  | [] => true
  | '_' :: c :: rest => c.isDigit && digitTail rest
  | ['_'] => false
  | c :: rest => c.isDigit && digitTail rest

/-- A digit run of a Python float literal: nonempty, underscores only
strictly between digits. -/
def digitPart (cs : List Char) : Bool :=
  match cs with
  | [] => false
  | c :: rest => c.isDigit && digitTail rest

/-- Numeric value of a digit run, underscores skipped. -/
def digitsVal (cs : List Char) : Nat :=
  (cs.filter (fun c => c ≠ '_')).foldl (fun n c => n * 10 + (c.toNat - '0'.toNat)) 0

/-- The infinity and NaN spellings that Python float(...) additionally
accepts; their values are not finite and lie outside the rational model,
so results about parse_price carry this guard as a hypothesis. -/
def pyNonFinite (s : String) : Bool :=
  let cs := (stripL s.data).map Char.toLower
  let t : List Char :=
    match cs with
    | '+' :: r => r
    | '-' :: r => r
    | r => r
  t == "inf".data || t == "infinity".data || t == "nan".data

/-- The finite fragment of Python float(string): optional surrounding
whitespace and sign, then digits with at most one decimal point, and an
optional exponent part, underscores allowed between digits.  Returns none
exactly when float(...) raises ValueError, and also on the non-finite
spellings recognised by pyNonFinite, whose values are not rational. -/
def pyFloat? (s : String) : Option ℚ :=
  let cs0 := stripL s.data
  let sgnNeg : Bool :=
    match cs0 with
    | '-' :: _ => true
    | _ => false
  let cs1 : List Char :=
    match cs0 with
    | '+' :: r => r
    | '-' :: r => r
    | r => r
  let mant := cs1.takeWhile (fun c => c ≠ 'e' && c ≠ 'E')
  let expPart := cs1.dropWhile (fun c => c ≠ 'e' && c ≠ 'E')
  let ip := mant.takeWhile (fun c => c ≠ '.')
  let fpDot := mant.dropWhile (fun c => c ≠ '.')
  let fp := fpDot.drop 1
  let mantOk : Bool :=
    if fpDot.isEmpty then digitPart ip
    else (ip.isEmpty || digitPart ip) && (fp.isEmpty || digitPart fp) &&
      !(ip.isEmpty && fp.isEmpty)
  let expTriple : Bool × Bool × Nat :=
    match expPart with
    | [] => (true, false, 0)
    | _ :: rest =>
      let eNeg : Bool :=
        match rest with
        | '-' :: _ => true
        | _ => false
      let ecs : List Char :=
        match rest with
        | '+' :: r => r
        | '-' :: r => r
        | r => r
      (digitPart ecs, eNeg, digitsVal ecs)
  let fracLen := (fp.filter (fun c => c ≠ '_')).length
  let mantVal : ℚ := (digitsVal ip : ℚ) + (digitsVal fp : ℚ) / ((10 : ℚ) ^ fracLen)
  let v0 : ℚ := if expTriple.2.1 then mantVal / (10 : ℚ) ^ expTriple.2.2
    else mantVal * (10 : ℚ) ^ expTriple.2.2
  let v : ℚ := if sgnNeg then -v0 else v0
  if mantOk && expTriple.1 then some v else none

/-- The cleaned text of parse_price after its replace and strip calls: every
rupee sign, comma and tilde deleted (each replace has a single-character
pattern, so it is a character filter) and surrounding whitespace
stripped. -/
def priceClean (s : String) : String :=
  String.mk (stripL (s.data.filter (fun c => c ≠ '₹' && c ≠ ',' && c ≠ '~')))

/-- The segment parse_price hands to float(): when a hyphen is present, the
stripped text before the first hyphen, split("-")[0].strip(); otherwise the
cleaned text unchanged. -/
def priceSegment (s : String) : String :=
  let c := priceClean s
  if c.data.contains '-' then String.mk (stripL (c.data.takeWhile (fun ch => ch ≠ '-')))
  else c

/-- parse_price: total by construction; the empty segment, the literal nan
and every float() failure yield 0 through the guard and the bare except. -/
def parse_price (s : String) : ℚ :=
  let seg := priceSegment s
  if seg ≠ "" ∧ seg ≠ "nan" then (pyFloat? seg).getD 0 else 0

/-- The two criteria fields search reads: criteria.get("keywords", []) and
criteria.get("max_price").  The other extractor fields are never read by
the engine. -/
structure Criteria where
  keywords : List String
  maxPrice : Option ℚ
deriving DecidableEq

/-- The hard max-price pre-filter: active only when max_price is present,
truthy, and strictly positive; keeps rows whose parsed price is at most
max_price * 1.1, the float literal 1.1 modelled exactly as 11 / 10. -/
def priceFilter (ds : List Record) (c : Criteria) : List Record :=
  match c.maxPrice with
  | none => ds
  | some mp => if 0 < mp then ds.filter (fun r => parse_price r.price ≤ mp * (11 / 10)) else ds

/-- A row annotated with the search_score and matched_terms columns. -/
structure Scored where
  row : Record
  score : ℚ
  matchedTerms : List String
deriving DecidableEq

/-- Insert a row into a list already sorted by score descending, before the
first strictly smaller score, after every earlier equal score. -/
def insertDesc (x : Scored) : List Scored → List Scored
  | [] => [x]
  | y :: ys => if y.score ≤ x.score then x :: y :: ys else y :: insertDesc x ys

/-- Sort by search_score descending.  The source line is
sort_values("search_score", ascending=False) whose default quicksort kind
does not guarantee stability; the spec mandates a stable descending sort,
which this insertion sort provides, ties keeping their original order. -/
def sortDesc (l : List Scored) : List Scored := l.foldr insertDesc []

/-- The keyword branch of search: score every price-filtered row with the
weights computed over the full dataset, drop rows whose score is zero, and
sort by score descending. -/
def scoredResults (ds : List Record) (c : Criteria) : List Scored :=
  let ws := keywordWeights ds c.keywords
  sortDesc (((priceFilter ds c).map
      (fun r => ⟨r, (calculate_score ws r).1, (calculate_score ws r).2⟩)).filter
    (fun sr => 0 < sr.score))

/-- KeywordSearchEngine.search: price pre-filter, then, when keywords were
supplied, weighting, scoring, zero-drop and sort, and finally head(limit).
In the keyword-less branch the frame carries no score columns; the model
fills score 0 and matched_terms [] there. -/
def search (ds : List Record) (c : Criteria) (limit : Nat) : List Scored :=
  if c.keywords = [] then ((priceFilter ds c).map (fun r => ⟨r, 0, []⟩)).take limit
  else (scoredResults ds c).take limit

/-- Modelled from the spec: no min-price filter exists under src (the
extractor schema declares min_price, but search never reads it).  Spec
section 4.1 describes the flow variant: records whose parsed price is
below a strictly-positive min_price are filtered out, with the same
parse_price as the max-price filter. -/
def minPriceFilter (ds : List Record) (minPrice : ℚ) : List Record :=
  if 0 < minPrice then ds.filter (fun r => minPrice ≤ parse_price r.price) else ds

/-- Stated from the wording of the spec, for comparison with parse_price:
a string that is purely numeric after removing at most one decimal
point. -/
def specPurelyNumeric (s : String) : Bool :=
  let noDot := s.data.erase '.'
  !noDot.isEmpty && noDot.all Char.isDigit

/-- JSON-style criteria values for the profile-store example. -/
inductive CVal where
  | num : ℚ → CVal
  | str : String → CVal
deriving DecidableEq

/-- Value of a key in a criteria object, none when the key is absent (dict
lookup; keys are unique in a dict, so the first hit is the value). -/
def lookupKey {α : Type} : List (String × α) → String → Option α
  | [], _ => none
  | p :: ps, k => if p.1 = k then some p.2 else lookupKey ps k

/-- Python del current[k] (guarded by k in current, a no-op otherwise). -/
def eraseKey {α : Type} (m : List (String × α)) (k : String) : List (String × α) :=
  m.filter (fun p => decide (p.1 ≠ k))

/-- Python current[k] = v on an insertion-ordered dict: overwrite in place
when the key exists, append otherwise. -/
def setKey {α : Type} (m : List (String × α)) (k : String) (v : α) : List (String × α) :=
  if m.any (fun p => decide (p.1 = k)) then m.map (fun p => if p.1 = k then (k, v) else p)
  else m ++ [(k, v)]

/-- The merge loop of update_funnel_criteria: for each key of the new
criteria in order, a none value deletes the stored key, a some value
overwrites it; keys the new criteria never mentions are untouched. -/
def update_funnel_criteria {α : Type} (current : List (String × α))
    (updates : List (String × Option α)) : List (String × α) :=
  updates.foldl
    (fun cur kv =>
      match kv.2 with
      | none => eraseKey cur kv.1
      | some v => setKey cur kv.1 v)
    current

/-! ### Helper lemmas about the embedding -/

theorem strIn_eq_true_iff {n h : String} : strIn n h = true ↔ n.data <:+: h.data := by
  simp [strIn]

theorem lowerStr_data (s : String) : (lowerStr s).data = s.data.map Char.toLower := rfl

theorem infix_glue (P M X Y : List Char) (h : P <:+: M) : P <:+: X ++ M ++ Y :=
  h.trans ⟨X, Y, rfl⟩

theorem searchText_data (r : Record) : (searchTextStr r).data =
    (lowerStr r.projectName).data ++ ((lowerStr " ").data ++ ((lowerStr r.developer).data ++
      ((lowerStr " ").data ++ ((lowerStr r.location).data ++ ((lowerStr " ").data ++
        ((lowerStr r.region).data ++ ((lowerStr " ").data ++ (lowerStr r.nearby).data))))))) := by
  simp [searchTextStr, lowerStr, String.data_append]

theorem strIn_searchText_of_proj {r : Record} {p : String}
    (h : strIn p (lowerStr r.projectName) = true) : strIn p (searchTextStr r) = true := by
  rw [strIn_eq_true_iff] at h ⊢
  rw [searchText_data]
  exact h.trans ((List.prefix_append _ _).isInfix)

theorem strIn_searchText_of_dev {r : Record} {p : String}
    (h : strIn p (lowerStr r.developer) = true) : strIn p (searchTextStr r) = true := by
  rw [strIn_eq_true_iff] at h ⊢
  rw [searchText_data]
  have h2 := infix_glue p.data (lowerStr r.developer).data
    ((lowerStr r.projectName).data ++ (lowerStr " ").data)
    ((lowerStr " ").data ++ ((lowerStr r.location).data ++ ((lowerStr " ").data ++
      ((lowerStr r.region).data ++ ((lowerStr " ").data ++ (lowerStr r.nearby).data))))) h
  simpa [List.append_assoc] using h2

theorem strIn_searchText_of_loc {r : Record} {p : String}
    (h : strIn p (lowerStr r.location) = true) : strIn p (searchTextStr r) = true := by
  rw [strIn_eq_true_iff] at h ⊢
  rw [searchText_data]
  have h2 := infix_glue p.data (lowerStr r.location).data
    ((lowerStr r.projectName).data ++ ((lowerStr " ").data ++ ((lowerStr r.developer).data ++
      (lowerStr " ").data)))
    ((lowerStr " ").data ++ ((lowerStr r.region).data ++ ((lowerStr " ").data ++
      (lowerStr r.nearby).data))) h
  simpa [List.append_assoc] using h2

theorem matches_of_projMatch {r : Record} {kw : String}
    (h : projMatch r (pySplit kw) = true) : matches_keyword r kw = true := by
  unfold projMatch at h
  unfold matches_keyword
  rw [List.all_eq_true] at h ⊢
  intro p hp
  exact strIn_searchText_of_proj (h p hp)

theorem matches_of_devMatch {r : Record} {kw : String}
    (h : devMatch r (pySplit kw) = true) : matches_keyword r kw = true := by
  unfold devMatch at h
  unfold matches_keyword
  rw [List.all_eq_true] at h ⊢
  intro p hp
  exact strIn_searchText_of_dev (h p hp)

theorem matches_of_locMatch {r : Record} {kw : String}
    (h : locMatch r (pySplit kw) = true) : matches_keyword r kw = true := by
  unfold locMatch at h
  unfold matches_keyword
  rw [List.all_eq_true] at h ⊢
  intro p hp
  exact strIn_searchText_of_loc (h p hp)

theorem countMatches_eq_zero_iff {ds : List Record} {kw : String} :
    countMatches ds kw = 0 ↔ ∀ r ∈ ds, matches_keyword r kw = false := by
  simp [countMatches, List.length_eq_zero, List.filter_eq_nil_iff]

theorem countMatches_pos_of_mem {ds : List Record} {kw : String} {r : Record}
    (hr : r ∈ ds) (hm : matches_keyword r kw = true) : 0 < countMatches ds kw := by
  have hmem : r ∈ ds.filter (fun r => matches_keyword r kw) := List.mem_filter.mpr ⟨hr, hm⟩
  exact List.length_pos.mpr (List.ne_nil_of_mem hmem)

theorem insertDesc_perm (x : Scored) (l : List Scored) : List.Perm (insertDesc x l) (x :: l) := by
  induction l with
  | nil => simp [insertDesc]
  | cons y ys ih =>
    unfold insertDesc
    by_cases h : y.score ≤ x.score
    · simp [h]
    · rw [if_neg h]
      exact (ih.cons y).trans (List.Perm.swap x y ys)

theorem sortDesc_perm (l : List Scored) : List.Perm (sortDesc l) l := by
  induction l with
  | nil => simp [sortDesc]
  | cons x xs ih =>
    have : sortDesc (x :: xs) = insertDesc x (sortDesc xs) := rfl
    rw [this]
    exact (insertDesc_perm x (sortDesc xs)).trans (ih.cons x)

theorem mem_sortDesc {x : Scored} {l : List Scored} : x ∈ sortDesc l ↔ x ∈ l :=
  (sortDesc_perm l).mem_iff

theorem calculate_score_foldl (r : Record) (ws : List (String × ℚ)) (s0 : ℚ)
    (m0 : List String) :
    ws.foldl (fun acc p => (acc.1 + (scoreKw r p.1 p.2).1, acc.2 ++ (scoreKw r p.1 p.2).2))
        (s0, m0) =
      (s0 + (ws.map (fun p => (scoreKw r p.1 p.2).1)).sum,
        m0 ++ ws.flatMap (fun p => (scoreKw r p.1 p.2).2)) := by
  induction ws generalizing s0 m0 with
  | nil => simp
  | cons p ps ih => simp [ih, add_assoc, List.append_assoc]

theorem calculate_score_spec (ws : List (String × ℚ)) (r : Record) :
    calculate_score ws r =
      ((ws.map (fun p => (scoreKw r p.1 p.2).1)).sum,
        ws.flatMap (fun p => (scoreKw r p.1 p.2).2)) := by
  simpa [calculate_score] using calculate_score_foldl r ws 0 []

theorem scoreKw_snd_sub (r : Record) (kw : String) (w : ℚ) :
    (scoreKw r kw w).2 = [kw] ∨ (scoreKw r kw w).2 = [] := by
  simp only [scoreKw]
  split_ifs <;> simp

theorem scoreKw_fst_zero (r : Record) (kw : String) : (scoreKw r kw 0).1 = 0 := by
  simp only [scoreKw]
  split_ifs <;> norm_num

theorem mem_scoreKw_snd {r : Record} {kw k : String} {w : ℚ}
    (h : k ∈ (scoreKw r kw w).2) : k = kw := by
  rcases scoreKw_snd_sub r kw w with h2 | h2 <;> rw [h2] at h <;> simp_all

theorem scoreKw_snd_cases {r : Record} {kw : String} {w : ℚ}
    (h : (scoreKw r kw w).2 ≠ []) :
    projMatch r (pySplit kw) = true ∨ devMatch r (pySplit kw) = true ∨
      locMatch r (pySplit kw) = true ∨ otherMatch r (pySplit kw) = true := by
  simp only [scoreKw] at h
  split_ifs at h with h1 h2 h3 h4
  · exact Or.inl h1
  · exact Or.inr (Or.inl h2)
  · exact Or.inr (Or.inr (Or.inl h3))
  · exact Or.inr (Or.inr (Or.inr h4))
  · simp at h

theorem priceFilter_subset {ds : List Record} {c : Criteria} {r : Record}
    (h : r ∈ priceFilter ds c) : r ∈ ds := by
  cases hmp : c.maxPrice with
  | none => simpa [priceFilter, hmp] using h
  | some mp =>
    by_cases h0 : 0 < mp
    · simp [priceFilter, hmp, h0] at h
      exact h.1
    · simpa [priceFilter, hmp, h0] using h

theorem mem_search_scored {ds : List Record} {c : Criteria} {limit : Nat} {sr : Scored}
    (hk : c.keywords ≠ []) (h : sr ∈ search ds c limit) :
    sr.row ∈ priceFilter ds c ∧
      (sr.score, sr.matchedTerms) = calculate_score (keywordWeights ds c.keywords) sr.row ∧
      0 < sr.score := by
  unfold search at h
  rw [if_neg hk] at h
  have h2 := List.mem_of_mem_take h
  simp only [scoredResults] at h2
  rw [mem_sortDesc] at h2
  obtain ⟨hmem, hsc⟩ := List.mem_filter.mp h2
  obtain ⟨r, hr, heq⟩ := List.mem_map.mp hmem
  cases heq
  refine ⟨hr, ?_, by simpa using hsc⟩
  simp

theorem mem_search_empty {ds : List Record} {c : Criteria} {limit : Nat} {sr : Scored}
    (hk : c.keywords = []) (h : sr ∈ search ds c limit) :
    sr.row ∈ priceFilter ds c ∧ sr.score = 0 ∧ sr.matchedTerms = [] := by
  unfold search at h
  rw [if_pos hk] at h
  have h2 := List.mem_of_mem_take h
  obtain ⟨r, hr, heq⟩ := List.mem_map.mp h2
  cases heq
  exact ⟨hr, rfl, rfl⟩

theorem search_row_mem {ds : List Record} {c : Criteria} {limit : Nat} {sr : Scored}
    (h : sr ∈ search ds c limit) : sr.row ∈ ds := by
  by_cases hk : c.keywords = []
  · exact priceFilter_subset (mem_search_empty hk h).1
  · exact priceFilter_subset (mem_search_scored hk h).1

theorem dedupKeys_go_nodup (l : List String) :
    ∀ acc : List String, acc.Nodup →
      (l.foldl (fun acc k => if k ∈ acc then acc else acc ++ [k]) acc).Nodup := by
  induction l with
  | nil => intro acc h; simpa using h
  | cons k ks ih =>
    intro acc h
    by_cases hk : k ∈ acc
    · simpa [hk] using ih acc h
    · have hnd : (acc ++ [k]).Nodup := by
        rw [List.nodup_append]
        refine ⟨h, List.nodup_singleton k, ?_⟩
        intro a ha hb
        rw [List.mem_singleton] at hb
        subst hb
        exact hk ha
      simpa [hk] using ih (acc ++ [k]) hnd

theorem dedupKeys_nodup (l : List String) : (dedupKeys l).Nodup :=
  dedupKeys_go_nodup l [] (by simp)

theorem count_flatMap_le (r : Record) (k : String) (ws : List (String × ℚ)) :
    (ws.flatMap (fun p => (scoreKw r p.1 p.2).2)).count k ≤ (ws.map Prod.fst).count k := by
  induction ws with
  | nil => simp
  | cons p ps ih =>
    rw [List.flatMap_cons, List.count_append, List.map_cons, List.count_cons]
    rcases scoreKw_snd_sub r p.1 p.2 with h | h <;> rw [h] <;> simp [List.count_cons] <;>
      split_ifs <;> simp_all <;> omega

theorem keywordWeights_keys (ds : List Record) (kws : List String) :
    (keywordWeights ds kws).map Prod.fst = dedupKeys kws := by
  have hcomp : (Prod.fst ∘ fun kw => (kw, weightFor ds kw)) = fun kw : String => kw := rfl
  simp [keywordWeights, List.map_map, hcomp]

theorem count_matched_terms_le_one (ds : List Record) (kws : List String) (r : Record)
    (k : String) : ((calculate_score (keywordWeights ds kws) r).2).count k ≤ 1 := by
  rw [calculate_score_spec]
  calc ((keywordWeights ds kws).flatMap (fun p => (scoreKw r p.1 p.2).2)).count k ≤
      ((keywordWeights ds kws).map Prod.fst).count k := count_flatMap_le r k _
    _ = (dedupKeys kws).count k := by rw [keywordWeights_keys]
    _ ≤ 1 := List.nodup_iff_count_le_one.mp (dedupKeys_nodup kws) k

theorem lookupKey_cons_pos {α : Type} {p : String × α} {k : String}
    (ps : List (String × α)) (h : p.1 = k) : lookupKey (p :: ps) k = some p.2 := by
  simp [lookupKey, h]

theorem lookupKey_cons_neg {α : Type} {p : String × α} {k : String}
    (ps : List (String × α)) (h : ¬ p.1 = k) : lookupKey (p :: ps) k = lookupKey ps k := by
  simp [lookupKey, h]

theorem eraseKey_cons_pos {α : Type} {p : String × α} {k : String}
    (ps : List (String × α)) (h : p.1 = k) : eraseKey (p :: ps) k = eraseKey ps k := by
  simp [eraseKey, List.filter_cons, h]

theorem eraseKey_cons_neg {α : Type} {p : String × α} {k : String}
    (ps : List (String × α)) (h : ¬ p.1 = k) :
    eraseKey (p :: ps) k = p :: eraseKey ps k := by
  simp [eraseKey, List.filter_cons, h]

theorem lookupKey_eraseKey_self {α : Type} (m : List (String × α)) (k : String) :
    lookupKey (eraseKey m k) k = none := by
  induction m with
  | nil => rfl
  | cons p ps ih =>
    by_cases h : p.1 = k
    · rw [eraseKey_cons_pos ps h]
      exact ih
    · rw [eraseKey_cons_neg ps h, lookupKey_cons_neg _ h]
      exact ih

theorem lookupKey_eraseKey_ne {α : Type} {k k' : String} (m : List (String × α))
    (h : k' ≠ k) : lookupKey (eraseKey m k) k' = lookupKey m k' := by
  induction m with
  | nil => rfl
  | cons p ps ih =>
    by_cases hp : p.1 = k
    · have hp' : ¬ p.1 = k' := by rw [hp]; exact fun he => h he.symm
      rw [eraseKey_cons_pos ps hp, lookupKey_cons_neg _ hp']
      exact ih
    · by_cases hp' : p.1 = k'
      · rw [eraseKey_cons_neg ps hp, lookupKey_cons_pos _ hp', lookupKey_cons_pos _ hp']
      · rw [eraseKey_cons_neg ps hp, lookupKey_cons_neg _ hp', lookupKey_cons_neg _ hp']
        exact ih

theorem lookupKey_overwrite_self {α : Type} {k : String} (v : α)
    (m : List (String × α)) (hm : m.any (fun p => decide (p.1 = k)) = true) :
    lookupKey (m.map (fun p => if p.1 = k then (k, v) else p)) k = some v := by
  induction m with
  | nil => simp at hm
  | cons p ps ih =>
    rw [List.map_cons]
    by_cases hp : p.1 = k
    · rw [if_pos hp, lookupKey_cons_pos _ rfl]
    · have hm2 : ps.any (fun p => decide (p.1 = k)) = true := by simpa [hp] using hm
      rw [if_neg hp, lookupKey_cons_neg _ hp]
      exact ih hm2

theorem lookupKey_overwrite_ne {α : Type} {k k' : String} (v : α)
    (m : List (String × α)) (h : k' ≠ k) :
    lookupKey (m.map (fun p => if p.1 = k then (k, v) else p)) k' = lookupKey m k' := by
  induction m with
  | nil => rfl
  | cons p ps ih =>
    rw [List.map_cons]
    by_cases hp : p.1 = k
    · have hk : ¬ (k, v).1 = k' := fun he => h he.symm
      have hp' : ¬ p.1 = k' := by rw [hp]; exact fun he => h he.symm
      rw [if_pos hp, lookupKey_cons_neg _ hk, lookupKey_cons_neg _ hp']
      exact ih
    · by_cases hp' : p.1 = k'
      · rw [if_neg hp, lookupKey_cons_pos _ hp', lookupKey_cons_pos _ hp']
      · rw [if_neg hp, lookupKey_cons_neg _ hp', lookupKey_cons_neg _ hp']
        exact ih

theorem lookupKey_append_single_self {α : Type} {k : String} (v : α)
    (m : List (String × α)) (hm : m.any (fun p => decide (p.1 = k)) = false) :
    lookupKey (m ++ [(k, v)]) k = some v := by
  induction m with
  | nil => simp [lookupKey]
  | cons p ps ih =>
    have hp : ¬ p.1 = k := by
      intro he
      simp [he] at hm
    have hm2 : ps.any (fun p => decide (p.1 = k)) = false := by
      simpa [hp] using hm
    rw [List.cons_append, lookupKey_cons_neg _ hp]
    exact ih hm2

theorem lookupKey_append_single_ne {α : Type} {k k' : String} (v : α)
    (m : List (String × α)) (h : k' ≠ k) :
    lookupKey (m ++ [(k, v)]) k' = lookupKey m k' := by
  induction m with
  | nil =>
    have hk : ¬ (k, v).1 = k' := fun he => h he.symm
    rw [List.nil_append, lookupKey_cons_neg _ hk]
  | cons p ps ih =>
    by_cases hp : p.1 = k'
    · rw [List.cons_append, lookupKey_cons_pos _ hp, lookupKey_cons_pos _ hp]
    · rw [List.cons_append, lookupKey_cons_neg _ hp, lookupKey_cons_neg _ hp]
      exact ih

theorem lookupKey_setKey_self {α : Type} (m : List (String × α)) (k : String) (v : α) :
    lookupKey (setKey m k v) k = some v := by
  unfold setKey
  by_cases hm : m.any (fun p => decide (p.1 = k)) = true
  · rw [if_pos hm]
    exact lookupKey_overwrite_self v m hm
  · rw [if_neg hm]
    exact lookupKey_append_single_self v m (Bool.eq_false_iff.mpr hm)

theorem lookupKey_setKey_ne {α : Type} {k k' : String} (m : List (String × α)) (v : α)
    (h : k' ≠ k) : lookupKey (setKey m k v) k' = lookupKey m k' := by
  unfold setKey
  by_cases hm : m.any (fun p => decide (p.1 = k)) = true
  · rw [if_pos hm]
    exact lookupKey_overwrite_ne v m h
  · rw [if_neg hm]
    exact lookupKey_append_single_ne v m h

theorem update_cons_none {α : Type} (cur : List (String × α)) (k0 : String)
    (us : List (String × Option α)) :
    update_funnel_criteria cur ((k0, none) :: us) =
      update_funnel_criteria (eraseKey cur k0) us := rfl

theorem update_cons_some {α : Type} (cur : List (String × α)) (k0 : String) (v : α)
    (us : List (String × Option α)) :
    update_funnel_criteria cur ((k0, some v) :: us) =
      update_funnel_criteria (setKey cur k0 v) us := rfl

theorem lookup_update_not_mem {α : Type} (us : List (String × Option α)) :
    ∀ (cur : List (String × α)) (k : String), k ∉ us.map Prod.fst →
      lookupKey (update_funnel_criteria cur us) k = lookupKey cur k := by
  induction us with
  | nil => intro cur k _; rfl
  | cons u us ih =>
    intro cur k hk
    obtain ⟨k0, w0⟩ := u
    rw [List.map_cons, List.mem_cons] at hk
    push_neg at hk
    obtain ⟨h1, h2⟩ := hk
    cases w0 with
    | none => rw [update_cons_none, ih _ k h2, lookupKey_eraseKey_ne _ h1]
    | some v => rw [update_cons_some, ih _ k h2, lookupKey_setKey_ne _ v h1]

theorem lookup_update_none {α : Type} (us : List (String × Option α)) :
    ∀ (cur : List (String × α)) (k : String), (us.map Prod.fst).Nodup →
      (k, (none : Option α)) ∈ us →
      lookupKey (update_funnel_criteria cur us) k = none := by
  induction us with
  | nil => intro _ _ _ hmem; simp at hmem
  | cons u us ih =>
    intro cur k hnd hmem
    obtain ⟨k0, w0⟩ := u
    rw [List.map_cons, List.nodup_cons] at hnd
    obtain ⟨hnmem, hnd2⟩ := hnd
    rcases List.mem_cons.mp hmem with heq | hmem2
    · injection heq with e1 e2
      subst e1
      rw [← e2, update_cons_none, lookup_update_not_mem us _ k hnmem]
      exact lookupKey_eraseKey_self cur k
    · cases w0 with
      | none => rw [update_cons_none]; exact ih _ k hnd2 hmem2
      | some v => rw [update_cons_some]; exact ih _ k hnd2 hmem2

theorem lookup_update_some {α : Type} (us : List (String × Option α)) :
    ∀ (cur : List (String × α)) (k : String) (v : α), (us.map Prod.fst).Nodup →
      (k, some v) ∈ us →
      lookupKey (update_funnel_criteria cur us) k = some v := by
  induction us with
  | nil => intro _ _ _ _ hmem; simp at hmem
  | cons u us ih =>
    intro cur k v hnd hmem
    obtain ⟨k0, w0⟩ := u
    rw [List.map_cons, List.nodup_cons] at hnd
    obtain ⟨hnmem, hnd2⟩ := hnd
    rcases List.mem_cons.mp hmem with heq | hmem2
    · injection heq with e1 e2
      subst e1
      rw [← e2, update_cons_some, lookup_update_not_mem us _ k hnmem]
      exact lookupKey_setKey_self cur k v
    · cases w0 with
      | none => rw [update_cons_none]; exact ih _ k v hnd2 hmem2
      | some v2 => rw [update_cons_some]; exact ih _ k v hnd2 hmem2

/-! ### Concrete fixtures for the claims -/

/-- A row whose Key Amenities mention a pool that no weighting field does. -/
def c1row : Record := ⟨"Alpha", "DevCo", "Hebbal", "North", "Near Lake", "pool gym", ""⟩

def c1ds : List Record := [c1row]

def c1crit : Criteria := ⟨["pool", "alpha"], none⟩

def c3r1 : Record := ⟨"Sobha Dream Gardens", "Sobha", "Whitefield", "East", "", "", ""⟩

def c3r2 : Record := ⟨"Lake View", "Sobha", "Electronic City", "South", "", "", ""⟩

def c3r3 : Record := ⟨"Prestige Falcon", "Prestige", "Whitefield", "East", "", "", ""⟩

def c3ds : List Record := [c3r1, c3r2, c3r3]

def c3crit : Criteria := ⟨["Sobha"], none⟩

def c4row : Record := ⟨"Sobha Dream Gardens", "Sobha", "Whitefield", "East", "", "", ""⟩

def c5in : Record := ⟨"A", "", "", "", "", "", "11000"⟩

def c5out : Record := ⟨"B", "", "", "", "", "", "11001"⟩

def c5crit : Criteria := ⟨[], some 10000⟩

def c7row : Record := ⟨"P", "D", "L", "R", "N", "A", "On Request"⟩

def c8current : List (String × CVal) :=
  [("bedrooms", CVal.num 3), ("location", CVal.str "Whitefield")]

def c8updates : List (String × Option CVal) := [("bedrooms", none)]

def c9ds : List Record :=
  [⟨"P1", "", "", "", "", "", ""⟩, ⟨"P2", "", "", "", "", "", ""⟩,
    ⟨"P3", "", "", "", "", "", ""⟩, ⟨"P4", "", "", "", "", "", ""⟩,
    ⟨"P5", "", "", "", "", "", ""⟩]

def c9crit : Criteria := ⟨[], none⟩

def c10row : Record := ⟨"Sobha Dream Gardens", "Sobha", "Whitefield", "East", "", "", ""⟩

def c10ds : List Record := [c10row]

/-! ### The claims -/

/-- Claim C1, counterexample: over the dataset c1ds the keyword "pool"
matches zero records in the weighting scan (which reads project name,
developer, location, region and nearby developments), yet search returns a
record whose matched_terms contains "pool", because the fourth scoring tier
also scans Key Amenities.  This refutes the claim that a zero-match keyword
never appears in the matched_terms of any returned record. -/
theorem c1_zero_match_keyword_counterexample :
    countMatches c1ds "pool" = 0 ∧
      (search c1ds c1crit 20).map Scored.matchedTerms = [["pool", "alpha"]] :=
  ⟨by decide, by decide⟩

/-- Claim C1 (amended): a keyword whose match count over the full dataset is
zero receives weight 0 and contributes 0 to every record's score; it can
still appear in the matched_terms of a record returned by search, but only
through the region/nearby/amenities tier (possible because that tier scans
Key Amenities, which the weighting scan does not), never through the
project-name, developer or location tiers. -/
theorem c1_zero_match_keyword_amended (ds : List Record) (c : Criteria) (limit : Nat)
    (kw : String) (r : Record) (sr : Scored)
    (h0 : countMatches ds kw = 0) (hsr : sr ∈ search ds c limit)
    (hkw : kw ∈ sr.matchedTerms) :
    weightFor ds kw = 0 ∧ (scoreKw r kw (weightFor ds kw)).1 = 0 ∧
      otherMatch sr.row (pySplit kw) = true ∧ projMatch sr.row (pySplit kw) = false ∧
      devMatch sr.row (pySplit kw) = false ∧ locMatch sr.row (pySplit kw) = false := by
  have hw : weightFor ds kw = 0 := by simp [weightFor, h0]
  have hz : (scoreKw r kw (weightFor ds kw)).1 = 0 := by
    rw [hw]
    exact scoreKw_fst_zero r kw
  have hrow : sr.row ∈ ds := search_row_mem hsr
  have hk : c.keywords ≠ [] := by
    intro he
    have h2 := (mem_search_empty he hsr).2.2
    rw [h2] at hkw
    simp at hkw
  obtain ⟨-, heq, -⟩ := mem_search_scored hk hsr
  have hmt : sr.matchedTerms = (calculate_score (keywordWeights ds c.keywords) sr.row).2 :=
    congrArg Prod.snd heq
  rw [hmt, calculate_score_spec, List.mem_flatMap] at hkw
  obtain ⟨p, hp, hmem⟩ := hkw
  have hkkw : kw = p.1 := mem_scoreKw_snd hmem
  subst hkkw
  have hproj : projMatch sr.row (pySplit p.1) = false := by
    by_contra hx
    rw [Bool.not_eq_false] at hx
    have := countMatches_pos_of_mem hrow (matches_of_projMatch hx)
    omega
  have hdev : devMatch sr.row (pySplit p.1) = false := by
    by_contra hx
    rw [Bool.not_eq_false] at hx
    have := countMatches_pos_of_mem hrow (matches_of_devMatch hx)
    omega
  have hloc : locMatch sr.row (pySplit p.1) = false := by
    by_contra hx
    rw [Bool.not_eq_false] at hx
    have := countMatches_pos_of_mem hrow (matches_of_locMatch hx)
    omega
  have hne : (scoreKw sr.row p.1 p.2).2 ≠ [] := by
    intro he
    rw [he] at hmem
    simp at hmem
  have hother : otherMatch sr.row (pySplit p.1) = true := by
    rcases scoreKw_snd_cases hne with hc2 | hc2 | hc2 | hc2
    · rw [hc2] at hproj; cases hproj
    · rw [hc2] at hdev; cases hdev
    · rw [hc2] at hloc; cases hloc
    · exact hc2
  exact ⟨hw, hz, hother, hproj, hdev, hloc⟩

/-- Witness for the amended Claim C1 at the concrete one-record dataset. -/
theorem c1_zero_match_keyword_amended_witness :
    weightFor c1ds "pool" = 0 ∧ (scoreKw c1row "pool" (weightFor c1ds "pool")).1 = 0 ∧
      otherMatch c1row (pySplit "pool") = true ∧ projMatch c1row (pySplit "pool") = false ∧
      devMatch c1row (pySplit "pool") = false ∧ locMatch c1row (pySplit "pool") = false :=
  c1_zero_match_keyword_amended c1ds c1crit 20 "pool" c1row
    ⟨c1row, 1000, ["pool", "alpha"]⟩ (by decide) (by decide) (by decide)

/-- Claim C3: keyword weights are computed over the full dataset (the scores
and matched_terms of every record returned by a keyword search come from
calculate_score applied with keywordWeights of the whole dataset, not of
the price-filtered subset), a keyword with positive match count m gets
weight 100 / m, strictly fewer matches means strictly greater weight, one
match gives weight 100 and fifty matches give weight 2. -/
theorem c3_weights_full_dataset (ds : List Record) (c : Criteria) (limit : Nat)
    (kwA kwB : String) (sr : Scored)
    (hA : 0 < countMatches ds kwA) (hk : c.keywords ≠ [])
    (hsr : sr ∈ search ds c limit) :
    weightFor ds kwA = 100 / (countMatches ds kwA : ℚ) ∧
      (countMatches ds kwA < countMatches ds kwB →
        weightFor ds kwB < weightFor ds kwA) ∧
      (countMatches ds kwA = 1 → weightFor ds kwA = 100) ∧
      (countMatches ds kwA = 50 → weightFor ds kwA = 2) ∧
      (sr.score, sr.matchedTerms) = calculate_score (keywordWeights ds c.keywords) sr.row := by
  refine ⟨?_, ?_, ?_, ?_, (mem_search_scored hk hsr).2.1⟩
  · simp [weightFor, hA]
  · intro hlt
    have hB : 0 < countMatches ds kwB := Nat.lt_trans hA hlt
    have hcast : (countMatches ds kwA : ℚ) < (countMatches ds kwB : ℚ) := by
      exact_mod_cast hlt
    have hApos : (0 : ℚ) < (countMatches ds kwA : ℚ) := by exact_mod_cast hA
    simp only [weightFor, if_pos hA, if_pos hB]
    exact div_lt_div_of_pos_left (by norm_num) hApos hcast
  · intro h1
    simp [weightFor, h1]
  · intro h50
    simp only [weightFor, h50]
    norm_num

/-- Witness for Claim C3 on the three-record Sobha scenario of the spec. -/
theorem c3_weights_full_dataset_witness :
    weightFor c3ds "Prestige" = 100 / (countMatches c3ds "Prestige" : ℚ) ∧
      (countMatches c3ds "Prestige" < countMatches c3ds "Sobha" →
        weightFor c3ds "Sobha" < weightFor c3ds "Prestige") ∧
      (countMatches c3ds "Prestige" = 1 → weightFor c3ds "Prestige" = 100) ∧
      (countMatches c3ds "Prestige" = 50 → weightFor c3ds "Prestige" = 2) ∧
      ((⟨c3r1, 500, ["Sobha"]⟩ : Scored).score,
          (⟨c3r1, 500, ["Sobha"]⟩ : Scored).matchedTerms) =
        calculate_score (keywordWeights c3ds c3crit.keywords)
          (⟨c3r1, 500, ["Sobha"]⟩ : Scored).row :=
  c3_weights_full_dataset c3ds c3crit 20 "Prestige" "Sobha" ⟨c3r1, 500, ["Sobha"]⟩
    (by decide) (by decide) (by decide)

/-- Claim C4: the four scoring tiers are evaluated in their fixed order and
the first matching tier is the only one that contributes for a keyword: a
record whose project name contains every token of the keyword scores
exactly weight * 10 for it (even when the developer tier would also match),
a record score is the sum of one contribution per entry of the weight
mapping, matched_terms is the concatenation of the per-keyword increments,
and in calculate_score over the keyword_weights dict every keyword
occurs at most once in matched_terms. -/
theorem c4_tier_precedence (r : Record) (kw : String) (w : ℚ)
    (ws : List (String × ℚ)) (ds : List Record) (kws : List String) (k : String)
    (hproj : projMatch r (pySplit kw) = true) :
    scoreKw r kw w = (w * 10, [kw]) ∧
      (devMatch r (pySplit kw) = true → scoreKw r kw w = (w * 10, [kw])) ∧
      (calculate_score ws r).1 = (ws.map (fun p => (scoreKw r p.1 p.2).1)).sum ∧
      (calculate_score ws r).2 = ws.flatMap (fun p => (scoreKw r p.1 p.2).2) ∧
      ((calculate_score (keywordWeights ds kws) r).2).count k ≤ 1 := by
  have h1 : scoreKw r kw w = (w * 10, [kw]) := by simp [scoreKw, hproj]
  exact ⟨h1, fun _ => h1, congrArg Prod.fst (calculate_score_spec ws r),
    congrArg Prod.snd (calculate_score_spec ws r), count_matched_terms_le_one ds kws r k⟩

/-- Witness for Claim C4 on a record whose project name and developer both
contain the keyword. -/
theorem c4_tier_precedence_witness :
    scoreKw c4row "Sobha" 50 = (50 * 10, ["Sobha"]) ∧
      (devMatch c4row (pySplit "Sobha") = true → scoreKw c4row "Sobha" 50 = (50 * 10, ["Sobha"])) ∧
      (calculate_score [("Sobha", 50)] c4row).1 =
        ([("Sobha", 50)].map (fun p => (scoreKw c4row p.1 p.2).1)).sum ∧
      (calculate_score [("Sobha", 50)] c4row).2 =
        [("Sobha", 50)].flatMap (fun p => (scoreKw c4row p.1 p.2).2) ∧
      ((calculate_score (keywordWeights [c4row] ["Sobha", "Sobha"]) c4row).2).count "Sobha" ≤ 1 :=
  c4_tier_precedence c4row "Sobha" 50 [("Sobha", 50)] [c4row] ["Sobha", "Sobha"] "Sobha"
    (by decide)

/-- Claim C5: when max_price is a positive number the price pre-filter keeps
exactly the records whose parsed price is at most max_price * 1.1; with
max_price = 10000 a record with parsed price 11000 is included and a record
with parsed price 11001 is excluded. -/
theorem c5_price_filter (ds : List Record) (c : Criteria) (mp : ℚ) (r : Record)
    (hmp : c.maxPrice = some mp) (hpos : 0 < mp) :
    priceFilter ds c = ds.filter (fun q => parse_price q.price ≤ mp * (11 / 10)) ∧
      (r ∈ priceFilter ds c ↔ r ∈ ds ∧ parse_price r.price ≤ mp * (11 / 10)) ∧
      priceFilter [c5in, c5out] c5crit = [c5in] := by
  have h1 : priceFilter ds c = ds.filter (fun q => parse_price q.price ≤ mp * (11 / 10)) := by
    simp [priceFilter, hmp, hpos]
  refine ⟨h1, ?_, by decide⟩
  rw [h1, List.mem_filter]
  simp

/-- Witness for Claim C5 at max_price 10000 and the boundary prices 11000
and 11001. -/
theorem c5_price_filter_witness :
    priceFilter [c5in, c5out] c5crit =
        [c5in, c5out].filter (fun q => parse_price q.price ≤ 10000 * (11 / 10)) ∧
      (c5in ∈ priceFilter [c5in, c5out] c5crit ↔
        c5in ∈ [c5in, c5out] ∧ parse_price c5in.price ≤ 10000 * (11 / 10)) ∧
      priceFilter [c5in, c5out] c5crit = [c5in] :=
  c5_price_filter [c5in, c5out] c5crit 10000 c5in (by decide) (by decide)

/-- Claim C6, counterexample: the spec says the price parser yields 0 for
any remaining string that is not purely numeric after removing at most one
decimal point, but the segment "1e3" is not purely numeric and float(...)
parses it, so parse_price gives 1000, not 0. -/
theorem c6_price_parser_counterexample :
    specPurelyNumeric "1e3" = false ∧ parse_price "1e3" = 1000 :=
  ⟨by decide, by decide⟩

/-- Claim C6 (amended): the price parser is total; after stripping the
currency symbol, commas, tildes and whitespace it takes the stripped
segment before the first hyphen when one is present ("4500-5000" parses to
4500, not an average); the empty segment and the literal "nan" yield 0, and
(infinity and NaN spellings aside) any segment that is not a valid finite
Python float literal, a strictly larger class than the purely numeric
strings since float also accepts signs, exponents and underscores between
digits, yields 0 through the bare except. -/
theorem c6_price_parser_amended (s : String)
    (hfin : pyNonFinite (priceSegment s) = false)
    (hfail : pyFloat? (priceSegment s) = none) :
    parse_price s = 0 ∧ parse_price "4500-5000" = 4500 ∧ parse_price "" = 0 ∧
      parse_price "nan" = 0 := by
  refine ⟨?_, by decide, by decide, by decide⟩
  simp only [parse_price]
  split_ifs with hc
  · rw [hfail]
    rfl
  · rfl

/-- Witness for the amended Claim C6 on the unparsable price text
"On Request". -/
theorem c6_price_parser_amended_witness :
    parse_price "On Request" = 0 ∧ parse_price "4500-5000" = 4500 ∧ parse_price "" = 0 ∧
      parse_price "nan" = 0 :=
  c6_price_parser_amended "On Request" (by decide) (by decide)

/-- Claim C7 (modelled from the spec, no min-price filter exists under src):
in the flow variant with a strictly-positive min_price, the filter keeps
exactly the records whose parsed price, computed with the same parse_price
as the max-price filter, is at least min_price; a record whose price is
unparsable parses to 0 and therefore always fails the filter. -/
theorem c7_min_price_filter (ds : List Record) (mp : ℚ) (r : Record) (hpos : 0 < mp) :
    minPriceFilter ds mp = ds.filter (fun q => mp ≤ parse_price q.price) ∧
      (r ∈ minPriceFilter ds mp ↔ r ∈ ds ∧ mp ≤ parse_price r.price) ∧
      (parse_price r.price = 0 → r ∉ minPriceFilter ds mp) := by
  have h1 : minPriceFilter ds mp = ds.filter (fun q => mp ≤ parse_price q.price) := by
    simp [minPriceFilter, hpos]
  have h2 : r ∈ minPriceFilter ds mp ↔ r ∈ ds ∧ mp ≤ parse_price r.price := by
    rw [h1, List.mem_filter]
    simp
  refine ⟨h1, h2, ?_⟩
  intro hz hin
  have hle := (h2.mp hin).2
  rw [hz] at hle
  exact absurd hle (not_le.mpr hpos)

/-- Witness for Claim C7 on a record whose price reads "On Request". -/
theorem c7_min_price_filter_witness :
    minPriceFilter [c7row] 5 = [c7row].filter (fun q => (5 : ℚ) ≤ parse_price q.price) ∧
      (c7row ∈ minPriceFilter [c7row] 5 ↔
        c7row ∈ [c7row] ∧ (5 : ℚ) ≤ parse_price c7row.price) ∧
      (parse_price c7row.price = 0 → c7row ∉ minPriceFilter [c7row] 5) :=
  c7_min_price_filter [c7row] 5 c7row (by decide)

/-- Claim C8: merging new criteria into stored criteria deletes each stored
key whose new value is null, overwrites each key whose new value is
non-null, and leaves every key the new criteria does not mention unchanged
(stated over any new-criteria dict, whose keys are unique). -/
theorem c8_criteria_merge {α : Type} (current : List (String × α))
    (updates : List (String × Option α)) (k : String) (v : α)
    (hnd : (updates.map Prod.fst).Nodup) :
    ((k, (none : Option α)) ∈ updates →
      lookupKey (update_funnel_criteria current updates) k = none) ∧
      ((k, some v) ∈ updates →
        lookupKey (update_funnel_criteria current updates) k = some v) ∧
      (k ∉ updates.map Prod.fst →
        lookupKey (update_funnel_criteria current updates) k = lookupKey current k) :=
  ⟨fun h => lookup_update_none updates current k hnd h,
   fun h => lookup_update_some updates current k v hnd h,
   fun h => lookup_update_not_mem updates current k h⟩

/-- Witness for Claim C8: merging a null bedrooms value into stored criteria
with bedrooms 3 and location Whitefield removes bedrooms, keeps location,
and yields exactly the one-key criteria object of the spec example. -/
theorem c8_criteria_merge_witness :
    lookupKey (update_funnel_criteria c8current c8updates) "bedrooms" = none ∧
      lookupKey (update_funnel_criteria c8current c8updates) "location" =
        lookupKey c8current "location" ∧
      update_funnel_criteria c8current c8updates = [("location", CVal.str "Whitefield")] :=
  ⟨(c8_criteria_merge c8current c8updates "bedrooms" (CVal.num 3) (by decide)).1 (by decide),
   (c8_criteria_merge c8current c8updates "location" (CVal.num 3) (by decide)).2.2 (by decide),
   by decide⟩

/-- Claim C9: with an empty keyword list search skips scoring, the zero-drop
and the sort, returning the price-filtered rows in original dataset order
truncated to the limit; when additionally max_price is absent it returns
the first limit rows of the dataset itself. -/
theorem c9_no_keywords (ds : List Record) (c : Criteria) (limit : Nat)
    (hk : c.keywords = []) :
    (search ds c limit).map Scored.row = (priceFilter ds c).take limit ∧
      (c.maxPrice = none → (search ds c limit).map Scored.row = ds.take limit) := by
  have hcomp : (Scored.row ∘ fun r => (⟨r, 0, []⟩ : Scored)) = fun r : Record => r := rfl
  have h1 : (search ds c limit).map Scored.row = (priceFilter ds c).take limit := by
    simp [search, hk, ← List.map_take, List.map_map, hcomp]
  refine ⟨h1, fun hmp => ?_⟩
  rw [h1]
  simp [priceFilter, hmp]

/-- Witness for Claim C9: a five-record dataset with no keywords and no
max_price comes back whole and in order under the default limit 20. -/
theorem c9_no_keywords_witness :
    (search c9ds c9crit 20).map Scored.row = c9ds.take 20 ∧ c9ds.take 20 = c9ds :=
  ⟨(c9_no_keywords c9ds c9crit 20 (by decide)).2 (by decide), by decide⟩

/-- Claim C10: a keyword whose whitespace tokenization is empty vacuously
matches every record: it matches in the weighting scan, its match count is
the full dataset size N, its weight is 100 / N on a non-empty dataset, and
in the scoring stage it hits the project-name tier of every record, adding
weight * 10 = (100 / N) * 10 to the score and placing the keyword in
matched_terms. -/
theorem c10_empty_tokenization (ds : List Record) (r : Record) (kw : String)
    (hsplit : pySplit kw = []) (hne : ds ≠ []) :
    matches_keyword r kw = true ∧ countMatches ds kw = ds.length ∧
      weightFor ds kw = 100 / (ds.length : ℚ) ∧
      scoreKw r kw (weightFor ds kw) = (100 / (ds.length : ℚ) * 10, [kw]) := by
  have hm : ∀ q : Record, matches_keyword q kw = true := by
    intro q
    simp [matches_keyword, hsplit]
  have hc : countMatches ds kw = ds.length := by
    unfold countMatches
    rw [List.filter_eq_self.mpr (fun a _ => hm a)]
  have hlen : 0 < ds.length := List.length_pos.mpr hne
  have hw : weightFor ds kw = 100 / (ds.length : ℚ) := by
    simp [weightFor, hc, hlen]
  have hproj : projMatch r (pySplit kw) = true := by
    rw [hsplit]
    rfl
  refine ⟨hm r, hc, hw, ?_⟩
  rw [hw]
  simp [scoreKw, hproj]

/-- Witness for Claim C10 with the empty keyword over a one-record
dataset. -/
theorem c10_empty_tokenization_witness :
    matches_keyword c10row "" = true ∧ countMatches c10ds "" = c10ds.length ∧
      weightFor c10ds "" = 100 / (c10ds.length : ℚ) ∧
      scoreKw c10row "" (weightFor c10ds "") = (100 / (c10ds.length : ℚ) * 10, [""]) :=
  c10_empty_tokenization c10ds c10row "" (by decide) (by decide)

end OpenPools
